import Mathlib

/-!
# FileSync — verification of the reconciliation engine against its specification

Shallow embedding of `src/client/main.py` (the whole repository is this one
file).  The embedding mirrors the source faithfully:

* `secure_compare` — the length-then-equality string comparison (lines 31-50);
* `JVal` — the JSON values stored in `config.json` (Python `None`/`int`/`str`/
  `list`/`dict` as produced by `json.loads`); `updateConfig` (lines 405-447)
  is modelled by `updateConfigVal` on the parsed value and `updateConfigS` on
  the raw file contents;
* `dumps`/`loads` — the `json.dumps`/`json.loads` calls used by
  `initConfig`/`updateConfig`, modelled on the fragment of JSON the program
  itself emits (null, decimal naturals, double-quoted strings with `\"` and
  `\\` escapes, arrays, objects, with Python's default `", "`/`": "`
  separators);
* the per-file body of `FileSync.sync` (lines 498-551), modelled by
  `syncStep`.  A key fact of the source drives the model: `self.config` is
  assigned once in `__init__` and never mutated afterwards — `updateConfig`
  re-reads and re-writes `config.json` only.  Hence the decision code
  (`checkLocalFile`, `checkRemoteFile`, the `in` tests in `sync`) consults the
  startup snapshot `MemConfig`, while the hash updates evolve the on-disk
  state, carried separately as a `JVal`.
-/

/-- Length-then-equality comparison from `secure_compare` (main.py lines 31-50):
returns `False` when the lengths differ, otherwise compares for equality. -/
def secure_compare (hash1 hash2 : String) : Bool :=
  if hash1.length ≠ hash2.length then false else hash1 == hash2

/-- JSON values as produced by `json.loads` on the program's `config.json`:
Python `None`, non-negative integers (the only numbers the program stores is
the port), strings, lists and (insertion-ordered) dicts. -/
inductive JVal : Type where
  | null : JVal
  | num : Nat → JVal
  | str : String → JVal
  | arr : List JVal → JVal
  | obj : List (String × JVal) → JVal

/-- Python truthiness of a JSON value (`if config[key]`, `if stdout`, ...):
`None`, `0`, `""`, `[]` and `{}` are falsy, everything else truthy. -/
def pyTruthy : JVal → Bool
  | .null => false
  | .num n => n != 0
  | .str s => !(s == "")
  | .arr vs => !vs.isEmpty
  | .obj kvs => !kvs.isEmpty

/-- `type(value) is dict`. -/
def isDict : JVal → Bool
  | .obj _ => true
  | _ => false

/-- Python dict assignment `d[k] = v` on an insertion-ordered association
list: an existing key keeps its position, a new key is appended. -/
def objSet (kvs : List (String × JVal)) (k : String) (v : JVal) :
    List (String × JVal) :=
  if (kvs.lookup k).isSome then
    kvs.map (fun kv => if kv.1 == k then (kv.1, v) else kv)
  else kvs ++ [(k, v)]

/-- The key/value logic of `FileSync.updateConfig` (main.py lines 429-435) on
the parsed config value:

```python
if key in config:
    if config[key] and type(value) is dict:
        config[key] = config[key].update(value)
    else:
        config[key] = value
else:
    config[key] = value
```

Note `dict.update` mutates in place and returns `None`, so the first branch
ends with `config[key] = None`. -/
def updateConfigVal (config : JVal) (key : String) (value : JVal) : JVal :=
  match config with
  | .obj kvs =>
    if (kvs.lookup key).isSome then
      if pyTruthy ((kvs.lookup key).getD .null) && isDict value then
        .obj (objSet kvs key .null)
      else
        .obj (objSet kvs key value)
    else
      .obj (objSet kvs key value)
  | other => other

/-- The in-memory configuration snapshot `self.config` as consulted by the
sync loop.  It is assigned once in `__init__` (from `initConfig`) and never
mutated afterwards: `updateConfig` reads and writes only the `config.json`
file.  Only the fields the per-file sync body reads are kept. -/
structure MemConfig : Type where
  local_hashes : List (String × String)
  remote_hashes : List (String × String)

/-- The observations and transfer outcomes the environment supplies to one
per-file pass of `FileSync.sync`:

* `localExists` — `os.path.exists(file)`;
* `localMD5` — `getMD5(file)` (the file content is stable within one pass, so
  repeated calls return the same digest);
* `sshOk` — whether `getSSHClient`/`getSCPClient` obtains a session;
* `remoteStderr`/`remoteStdout` — the `md5sum` probe run by `checkRemoteFile`:
  `remoteStderr = true` models non-empty stderr, `remoteStdout = some h`
  models non-empty stdout whose first word is `h`, `none` models empty stdout;
* `remoteStderrPost`/`remoteStdoutPost` — the fresh `md5sum` run by
  `updateRemoteHash` after any transfer;
* `uploadOk`/`downloadOk` — the boolean results of `upload`/`download`;
* `downloadedMD5` — `getMD5(file)` after a successful download. -/
structure FileEnv : Type where
  localExists : Bool
  localMD5 : String
  sshOk : Bool
  remoteStderr : Bool
  remoteStdout : Option String
  remoteStderrPost : Bool
  remoteStdoutPost : Option String
  uploadOk : Bool
  downloadOk : Bool
  downloadedMD5 : String

/-- Python's `str.split(sep)` for a one-character separator (`os.path.sep`
is a single character): split on every occurrence, keeping empty pieces, so
the result is always non-empty. -/
def pySplit (sep : Char) : List Char → List (List Char)
  | [] => [[]]
  | c :: cs =>
    match pySplit sep cs with
    | r :: rs => if c = sep then [] :: r :: rs else (c :: r) :: rs
    | [] => if c = sep then [[], []] else [[c]]

/-- `filepath.split(os.path.sep)[::-1][0]` — the last path component, used by
`upload` (line 295), `download` (line 320), `checkRemoteFile` (line 351) and
`updateRemoteHash` (line 460).  `sep` is `os.path.sep` (a single
character). -/
def remoteName (sep : Char) (filepath : String) : String :=
  String.mk (((pySplit sep filepath.data).reverse).headD [])

/-- `f'{self.REMOTE_PATH}/{filepath.split(os.path.sep)[::-1][0]}'` with
`REMOTE_PATH = '.FileSync'`: the remote-side key addressed by upload,
download and the remote digest probe. -/
def remotePath (sep : Char) (filepath : String) : String :=
  ".FileSync" ++ "/" ++ remoteName sep filepath

/-- `FileSync.checkLocalFile` (lines 379-403): exists → (if `local_hashes` is
truthy and the file is a key, compare the current digest against the stored
one; otherwise "Hash not found", `False`); absent → `False`. -/
def checkLocalFile (mem : MemConfig) (file : String) (env : FileEnv) : Bool :=
  if env.localExists then
    if !mem.local_hashes.isEmpty then
      match mem.local_hashes.lookup file with
      | some stored => secure_compare env.localMD5 stored
      | none => false
    else false
  else false

/-- `FileSync.checkRemoteFile` (lines 340-377).  The returned value models the
Python result: `.ok (some b)` an explicit `return`, `.ok none` the implicit
`None` when both stdout and stderr are empty, `.error ()` an uncaught
`KeyError` from `self.config["remote_hashes"][remote_path]` — reached when
`remote_hashes` is truthy (non-empty) but lacks the key, because
`if self.config['remote_hashes'] and self.config["remote_hashes"][remote_path]:`
indexes the dict after only a truthiness test on the whole dict. -/
def checkRemoteFile (mem : MemConfig) (sep : Char) (file : String) (env : FileEnv) :
    Except Unit (Option Bool) :=
  if env.sshOk then
    if env.remoteStderr then .ok (some false)
    else
      match env.remoteStdout with
      | some hash =>
        if !mem.remote_hashes.isEmpty then
          match mem.remote_hashes.lookup (remotePath sep file) with
          | some stored =>
            if !(stored == "") then .ok (some (secure_compare hash stored))
            else .ok (some false)
          | none => .error ()
        else .ok (some false)
      | none => .ok none
  else .ok (some false)

/-- Python truthiness of a `checkRemoteFile` result (`None` is falsy). -/
def pyTruthyOB : Option Bool → Bool
  | none => false
  | some b => b

/-- `FileSync.updateLocalHash` (lines 477-492) as it acts on the persisted
`config.json` value: if the file exists, hash it and merge
`{filepath: hash}` into `local_hashes` via `updateConfig`; otherwise no
write.  `exists_` and `md5` are supplied by the caller's context. -/
def updateLocalHash (disk : JVal) (file : String) (exists_ : Bool)
    (md5 : String) : JVal :=
  if exists_ then
    updateConfigVal disk "local_hashes" (.obj [(file, .str md5)])
  else disk

/-- `FileSync.updateRemoteHash` (lines 449-475) as it acts on the persisted
`config.json` value: run `md5sum` on the remote path; non-empty stderr or no
session → no write; non-empty stdout → merge `{remote_path: hash}` into
`remote_hashes` via `updateConfig`; empty stdout and stderr → no write. -/
def updateRemoteHash (disk : JVal) (sep : Char) (file : String) (env : FileEnv) : JVal :=
  if env.sshOk then
    if env.remoteStderrPost then disk
    else
      match env.remoteStdoutPost with
      | some hash =>
        updateConfigVal disk "remote_hashes"
          (.obj [(remotePath sep file, .str hash)])
      | none => disk
  else disk

/-- The operations one per-file pass of `FileSync.sync` performs, in order.
`upload b` / `download b` record a transfer attempt and its boolean result
(the source ignores that result in the tracked-changed branches);
`updLocal` / `updRemote` record `updateLocalHash` / `updateRemoteHash` calls;
`upToDate` is the "already up-to-date" log-and-continue; `skipMissing` is
"File not found in remote and local. Skipping.". -/
inductive Act : Type where
  | upload : Bool → Act
  | download : Bool → Act
  | updLocal : Act
  | updRemote : Act
  | upToDate : Act
  | skipMissing : Act
deriving Repr, DecidableEq

/-- One per-file pass of the body of `FileSync.sync` (lines 500-549), as a
function of the in-memory snapshot `mem`, the parsed on-disk state `disk`,
and the environment `env`.  Returns the ordered operations performed plus the
final on-disk state, or `.error ()` when `checkRemoteFile` raises `KeyError`
(uncaught in `sync`, so it crashes the loop).  The source's branch structure
is preserved, including the recomputed `checkLocalFile` calls after an
`updateLocalHash`/`updateRemoteHash` — those recomputations still read the
unchanged `mem`, which the proofs below exploit. -/
def syncStep (mem : MemConfig) (sep : Char) (file : String) (env : FileEnv)
    (disk : JVal) : Except Unit (List Act × JVal) :=
  if env.localExists then
    if !(checkLocalFile mem file env) then
      -- line 503: `if self.config['local_hashes'] and file in self.config['local_hashes']:`
      if !mem.local_hashes.isEmpty && (mem.local_hashes.lookup file).isSome then
        let d1 := updateLocalHash disk file env.localExists env.localMD5
        let d2 := updateRemoteHash d1 sep file env
        .ok ([.upload env.uploadOk, .updLocal, .updRemote], d2)
      else
        -- line 510-518: create the local hash on disk, re-check, then upload
        let d1 := updateLocalHash disk file env.localExists env.localMD5
        if !(checkLocalFile mem file env) then
          let d2 := updateLocalHash d1 file env.localExists env.localMD5
          let d3 := updateRemoteHash d2 sep file env
          .ok ([.updLocal, .upload env.uploadOk, .updLocal, .updRemote], d3)
        else
          .ok ([.updLocal], d1)
    else
      match checkRemoteFile mem sep file env with
      | .error e => .error e
      | .ok rv =>
        if !(pyTruthyOB rv) then
          -- line 520: `if self.config['remote_hashes'] and file in self.config['remote_hashes']:`
          -- note the membership test uses the *local* path `file` as key
          if !mem.remote_hashes.isEmpty
              && (mem.remote_hashes.lookup file).isSome then
            -- after the download attempt the local file holds the downloaded
            -- content when the transfer succeeded, the old content otherwise
            let md5After := if env.downloadOk then env.downloadedMD5
                            else env.localMD5
            let d1 := updateRemoteHash disk sep file env
            let d2 := updateLocalHash d1 file env.localExists md5After
            .ok ([.download env.downloadOk, .updRemote, .updLocal], d2)
          else
            let d1 := updateRemoteHash disk sep file env
            if !(checkLocalFile mem file env) then
              let md5After := if env.downloadOk then env.downloadedMD5
                              else env.localMD5
              let d2 := updateRemoteHash d1 sep file env
              let d3 := updateLocalHash d2 file env.localExists md5After
              .ok ([.updRemote, .download env.downloadOk, .updRemote,
                    .updLocal], d3)
            else
              .ok ([.updRemote], d1)
        else
          .ok ([.upToDate], disk)
  else
    -- lines 541-549: local copy absent — try to download
    if env.downloadOk then
      let d1 := updateLocalHash disk file true env.downloadedMD5
      let d2 := updateRemoteHash d1 sep file env
      .ok ([.download true, .updLocal, .updRemote], d2)
    else
      .ok ([.download false, .skipMissing], disk)

/-- Decimal digit character (used by the model of Python's integer
printing inside `json.dumps`). -/
def digitChar : Nat → Char
  | 0 => '0' | 1 => '1' | 2 => '2' | 3 => '3' | 4 => '4'
  | 5 => '5' | 6 => '6' | 7 => '7' | 8 => '8' | _ => '9'

/-- Decimal digits of `n`, most significant first, prepended to `acc`. -/
def natCharsAux (n : Nat) (acc : List Char) : List Char :=
  if h : n = 0 then acc
  else natCharsAux (n / 10) (digitChar (n % 10) :: acc)
decreasing_by exact Nat.div_lt_self (Nat.pos_of_ne_zero h) (by omega)

/-- Decimal notation of `n`, as `json.dumps` prints a non-negative int. -/
def natChars (n : Nat) : List Char := if n = 0 then ['0'] else natCharsAux n []

/-- `json.dumps` escaping for the characters the program's config values can
contain (printable ASCII): `"` and `\` get a backslash, the rest are
emitted verbatim. -/
def escChar (c : Char) : List Char :=
  if c = '"' ∨ c = '\\' then ['\\', c] else [c]

/-- Escaped character data of a string literal body. -/
def escStr (s : String) : List Char := s.data.flatMap escChar

mutual

/-- `json.dumps` on a value, with Python's default separators `", "` and
`": "`, as a character list. -/
def dumpVal : JVal → List Char
  | .null => 'n' :: 'u' :: 'l' :: 'l' :: []
  | .num n => natChars n
  | .str s => '"' :: (escStr s ++ ['"'])
  | .arr vs => '[' :: (dumpElems vs ++ [']'])
  | .obj kvs => '{' :: (dumpMembers kvs ++ ['}'])

/-- Comma-space separated array elements. -/
def dumpElems : List JVal → List Char
  | [] => []
  | [v] => dumpVal v
  | v :: vs => dumpVal v ++ ',' :: ' ' :: dumpElems vs

/-- Comma-space separated object members, each `"key": value`. -/
def dumpMembers : List (String × JVal) → List Char
  | [] => []
  | [(k, v)] => '"' :: (escStr k ++ '"' :: ':' :: ' ' :: dumpVal v)
  | (k, v) :: kvs =>
    ('"' :: (escStr k ++ '"' :: ':' :: ' ' :: dumpVal v))
      ++ ',' :: ' ' :: dumpMembers kvs

end

/-- `json.dumps` as used by `initConfig` (line 130) and `updateConfig`
(line 438). -/
def dumps (v : JVal) : String := String.mk (dumpVal v)

/-- JSON insignificant whitespace. -/
def isWs (c : Char) : Bool := c = ' ' ∨ c = '\t' ∨ c = '\n' ∨ c = '\r'

/-- Skip insignificant whitespace. -/
def skipWs : List Char → List Char
  | [] => []
  | c :: cs => if isWs c then skipWs cs else c :: cs

/-- Parse the body of a string literal after the opening quote, undoing the
`\"` and `\\` escapes, up to the closing quote.  Returns the decoded
characters and the rest of the input. -/
def parseStrBody : List Char → Option (List Char × List Char)
  | [] => none
  | '"' :: cs => some ([], cs)
  | '\\' :: c :: cs =>
    if c = '"' ∨ c = '\\' then
      match parseStrBody cs with
      | some (b, r) => some (c :: b, r)
      | none => none
    else none
  | c :: cs =>
    match parseStrBody cs with
    | some (b, r) => some (c :: b, r)
    | none => none

/-- Longest digit run at the head of the input. -/
def takeDigits : List Char → List Char × List Char
  | [] => ([], [])
  | c :: cs =>
    if c.isDigit then
      let (d, r) := takeDigits cs
      (c :: d, r)
    else ([], c :: cs)

/-- Numeric value of a digit character. -/
def digToNat (c : Char) : Nat := c.toNat - 48

/-- Numeric value of a digit run (most significant first). -/
def digitsVal (ds : List Char) : Nat :=
  ds.foldl (fun a c => a * 10 + digToNat c) 0

mutual

/-- Recursive-descent parser for the JSON fragment the program writes
(modelling `json.loads` on that fragment): null, non-negative decimal
numbers, strings with `\"`/`\\` escapes, arrays and objects.  `fuel` bounds
the nesting; every recursive call decreases it. -/
def parseVal : Nat → List Char → Option (JVal × List Char)
  | 0, _ => none
  | Nat.succ fuel, s =>
    match skipWs s with
    | [] => none
    | c :: cs =>
      if c = '"' then
        match parseStrBody cs with
        | some (b, r) => some (.str (String.mk b), r)
        | none => none
      else if c = '[' then
        match skipWs cs with
        | ']' :: r => some (.arr [], r)
        | cs2 =>
          match parseElems fuel cs2 with
          | some (vs, r) => some (.arr vs, r)
          | none => none
      else if c = '{' then
        match skipWs cs with
        | '}' :: r => some (.obj [], r)
        | cs2 =>
          match parseMembers fuel cs2 with
          | some (kvs, r) => some (.obj kvs, r)
          | none => none
      else if c = 'n' then
        match cs with
        | 'u' :: 'l' :: 'l' :: r => some (.null, r)
        | _ => none
      else if c.isDigit then
        let (ds, r) := takeDigits (c :: cs)
        some (.num (digitsVal ds), r)
      else none

/-- Parse one or more comma-separated array elements followed by `]`. -/
def parseElems : Nat → List Char → Option (List JVal × List Char)
  | 0, _ => none
  | Nat.succ fuel, s =>
    match parseVal fuel s with
    | none => none
    | some (v, r) =>
      match skipWs r with
      | ',' :: r2 =>
        match parseElems fuel r2 with
        | some (vs, r3) => some (v :: vs, r3)
        | none => none
      | ']' :: r2 => some ([v], r2)
      | _ => none

/-- Parse one or more comma-separated `"key": value` members followed by
`}`. -/
def parseMembers : Nat → List Char →
    Option (List (String × JVal) × List Char)
  | 0, _ => none
  | Nat.succ fuel, s =>
    match skipWs s with
    | '"' :: cs =>
      match parseStrBody cs with
      | some (k, r) =>
        match skipWs r with
        | ':' :: r2 =>
          match parseVal fuel r2 with
          | none => none
          | some (v, r3) =>
            match skipWs r3 with
            | ',' :: r4 =>
              match parseMembers fuel r4 with
              | some (kvs, r5) => some ((String.mk k, v) :: kvs, r5)
              | none => none
            | '}' :: r4 => some ([(String.mk k, v)], r4)
            | _ => none
        | _ => none
      | none => none
    | _ => none

end

/-- `json.loads` as used by `initConfig` (line 90) and `updateConfig`
(line 424): parse one value, allow trailing whitespace, reject anything
else.  `none` models the `json.loads` exception. -/
def loads (s : String) : Option JVal :=
  match parseVal (s.data.length + 1) s.data with
  | some (v, r) => if skipWs r = [] then some v else none
  | none => none

/-- The config-loading path of `FileSync.initConfig` when `config.json`
exists (lines 81-95): `json.loads` failure is `sys.exit(1)` (modelled as
`.error 1`), success returns the parsed data unvalidated. -/
def initConfigLoad (data : String) : Except Nat JVal :=
  match loads data with
  | none => .error 1
  | some v => .ok v

/-- `FileSync.updateConfig` (lines 405-447) at the level of the raw
`config.json` contents: re-read and parse the file (parse failure is
`sys.exit(1)`, modelled as `.error 1`), apply the key/value logic, and write
the re-serialized result back. -/
def updateConfigS (disk : String) (key : String) (value : JVal) :
    Except Nat String :=
  match loads disk with
  | none => .error 1
  | some cfg => .ok (dumps (updateConfigVal cfg key value))

/-- `FileSync.updateLocalHash` (lines 477-492) at the level of the raw
`config.json` contents, as invoked from the running sync loop: when the file
exists it calls `updateConfig('local_hashes', {filepath: hash})`, which
re-parses the persisted state and exits the process on parse failure. -/
def updateLocalHashS (disk : String) (file md5 : String) (exists_ : Bool) :
    Except Nat String :=
  if exists_ then updateConfigS disk "local_hashes" (.obj [(file, .str md5)])
  else .ok disk

mutual

/-- Validity of a persisted state value: every string (and key) consists of
printable ASCII characters.  This covers everything the program writes —
host names, user names, Windows/Unix paths (`\` and `"` are fine, they are
escaped) and hex digests — and is the domain on which the `dumps`/`loads`
model coincides with Python's `json.dumps`/`json.loads` (outside it Python
additionally emits `\uXXXX`/control escapes). -/
def validB : JVal → Bool
  | .null => true
  | .num _ => true
  | .str s => s.data.all (fun c => 32 ≤ c.toNat && c.toNat ≤ 126)
  | .arr vs => validBL vs
  | .obj kvs => validBM kvs

/-- Validity of a list of array elements. -/
def validBL : List JVal → Bool
  | [] => true
  | v :: vs => validB v && validBL vs

/-- Validity of a list of object members. -/
def validBM : List (String × JVal) → Bool
  | [] => true
  | kv :: kvs =>
    kv.1.data.all (fun c => 32 ≤ c.toNat && c.toNat ≤ 126)
      && validB kv.2 && validBM kvs

end

mutual

/-- Number of parser steps needed for a value (fuel measure). -/
def nodes : JVal → Nat
  | .null => 1
  | .num _ => 1
  | .str _ => 1
  | .arr vs => nodesL vs + 1
  | .obj kvs => nodesM kvs + 1

/-- Fuel measure for array elements. -/
def nodesL : List JVal → Nat
  | [] => 0
  | v :: vs => nodes v + nodesL vs + 1

/-- Fuel measure for object members. -/
def nodesM : List (String × JVal) → Nat
  | [] => 0
  | kv :: kvs => nodes kv.2 + nodesM kvs + 1

end

/-- Modelled from the spec (§3, §9): "Digests are opaque, comparable by exact
equality only" — the comparison the redesigned spec prescribes is plain
string equality. -/
def specPlainEq (h1 h2 : String) : Bool := h1 == h2

/-- Guard for parsing a printed value followed by `rest`: only a printed
number could run together with what follows, so for `num` the remainder must
not start with a digit (inside arrays and objects it starts with `,`, `]` or
`}`; at top level it is empty). -/
def numGuard : JVal → List Char → Prop
  | .num _, rest => ∀ c, rest.head? = some c → c.isDigit = false
  | _, _ => True

/-- C5: for every pair of digest strings, `secure_compare` returns `True`
iff the two strings are equal — the length-then-equality comparison is
extensionally plain string equality (`specPlainEq`). -/
theorem secure_compare_eq_plain (h1 h2 : String) :
    secure_compare h1 h2 = specPlainEq h1 h2 := by
  unfold secure_compare specPlainEq
  split
  · next hne =>
    cases e : h1 == h2 with
    | false => rfl
    | true => exact absurd (congrArg String.length (eq_of_beq e)) hne
  · rfl

/-- C4 (failing input): `updateConfig('local_hashes', {"b": "h2"})` on a
persisted state whose `local_hashes` is the non-empty dict `{"a": "h1"}`
does not merge — `dict.update` returns `None`, so the whole `local_hashes`
mapping is replaced by `null`, destroying the entry for `"a"` instead of
leaving other files' entries unchanged. -/
theorem updateConfig_merge_sets_null :
    updateConfigVal
      (JVal.obj [("local_hashes", JVal.obj [("a", JVal.str "h1")]),
                 ("hostname", JVal.str "x")])
      "local_hashes" (JVal.obj [("b", JVal.str "h2")])
      = JVal.obj [("local_hashes", JVal.null), ("hostname", JVal.str "x")] :=
  rfl

/-- C10 (counterexample): two distinct tracked files with the same last path
component are addressed by the same remote key — `remotePath` is not
injective on the tracked set, so per-file remote identities collide. -/
theorem remotePath_basename_collision_cex :
    remotePath '/' "a/f" = remotePath '/' "b/f" ∧ "a/f" ≠ "b/f" :=
  ⟨rfl, by decide⟩

/-- C10 (amended): upload, download and the remote digest probe all address
the single key `remotePath` = `.FileSync/` + last path component, and that
key separates two tracked files exactly when their last path components
(`remoteName`) differ — files sharing a basename collide. -/
theorem remotePath_distinct_basenames (sep : Char) (f1 f2 : String)
    (h : remoteName sep f1 ≠ remoteName sep f2) :
    remotePath sep f1 ≠ remotePath sep f2 := by
  intro he
  apply h
  have hd := congrArg String.data he
  simp only [remotePath, String.data_append] at hd
  exact String.ext (List.append_cancel_left hd)

/-- Witness for `remotePath_distinct_basenames` at `sep = '/'`,
`f1 = "a/f"`, `f2 = "b/g"`. -/
theorem remotePath_distinct_basenames_witness :
    remoteName '/' "a/f" ≠ remoteName '/' "b/g" ∧
      remotePath '/' "a/f" ≠ remotePath '/' "b/g" :=
  ⟨by decide, remotePath_distinct_basenames '/' "a/f" "b/g" (by decide)⟩

/-- C9 (counterexample): with a successful remote digest probe (session up,
empty stderr, digest on stdout) but a stored `remote_hashes` mapping that is
non-empty yet lacks this file's remote key, `checkRemoteFile` raises
`KeyError` (modelled `.error ()`) instead of returning a boolean: the
membership test `self.config['remote_hashes'] and
self.config["remote_hashes"][remote_path]` indexes the dict after only a
truthiness check of the whole dict. -/
theorem checkRemoteFile_keyerror_cex :
    checkRemoteFile
      ⟨[("f", "d1")], [("other", "d9")]⟩ '/' "f"
      ⟨true, "d1", true, false, some "d2", false, some "d2", true, true, ""⟩
      = Except.error () :=
  rfl

/-- C9 (amended): when the remote digest probe succeeds, `checkRemoteFile`
returns a boolean provided the stored `remote_hashes` mapping is empty or
contains the file's remote key (a present-but-empty entry is treated as
"hash not found" and yields `False`); with a non-empty mapping lacking the
key it instead raises `KeyError`. -/
theorem checkRemoteFile_boolean_when_key_present (mem : MemConfig)
    (sep : Char) (file : String) (env : FileEnv)
    (hssh : env.sshOk = true) (herr : env.remoteStderr = false)
    (hout : env.remoteStdout.isSome)
    (hkey : mem.remote_hashes.isEmpty = true ∨
      (mem.remote_hashes.lookup (remotePath sep file)).isSome) :
    ∃ b, checkRemoteFile mem sep file env = Except.ok (some b) := by
  obtain ⟨h, hh⟩ := Option.isSome_iff_exists.mp hout
  unfold checkRemoteFile
  rw [hssh, herr, hh]
  simp only [if_true, Bool.false_eq_true, if_false]
  rcases hkey with hemp | hsome
  · simp [hemp]
  · obtain ⟨stored, hs⟩ := Option.isSome_iff_exists.mp hsome
    rw [hs]
    dsimp only
    split
    · split <;> exact ⟨_, rfl⟩
    · exact ⟨false, rfl⟩

/-- Witness for `checkRemoteFile_boolean_when_key_present`: non-empty stored
mapping containing the key. -/
theorem checkRemoteFile_boolean_when_key_present_witness :
    ∃ b, checkRemoteFile
      ⟨[("f", "d1")], [(".FileSync/f", "d1")]⟩ '/' "f"
      ⟨true, "d1", true, false, some "d2", false, some "d2", true, true, ""⟩
      = Except.ok (some b) :=
  checkRemoteFile_boolean_when_key_present
    ⟨[("f", "d1")], [(".FileSync/f", "d1")]⟩ '/' "f"
    ⟨true, "d1", true, false, some "d2", false, some "d2", true, true, ""⟩
    rfl rfl (by decide) (Or.inr (by decide))

/-- C8: for a tracked file absent locally whose download attempt fails (in
particular when the remote copy does not exist), the pass reports
"not found in remote and local, skipping" and leaves the persisted state —
including both stored digests — completely untouched. -/
theorem sync_missing_both_skips (mem : MemConfig) (sep : Char)
    (file : String) (env : FileEnv) (disk : JVal)
    (habs : env.localExists = false) (hdl : env.downloadOk = false) :
    syncStep mem sep file env disk
      = Except.ok ([Act.download false, Act.skipMissing], disk) := by
  unfold syncStep
  rw [habs, hdl]
  simp

/-- Witness for `sync_missing_both_skips`. -/
theorem sync_missing_both_skips_witness :
    syncStep ⟨[("f", "d1")], []⟩ '/' "f"
      ⟨false, "", true, false, none, false, none, false, false, ""⟩
      (JVal.obj [("local_hashes", JVal.obj [("f", JVal.str "d1")])])
      = Except.ok ([Act.download false, Act.skipMissing],
          JVal.obj [("local_hashes", JVal.obj [("f", JVal.str "d1")])]) :=
  sync_missing_both_skips _ '/' "f" _ _ rfl rfl

/-- Helper: `secure_compare` agrees with boolean string equality. -/
theorem secure_compare_beq (h1 h2 : String) :
    secure_compare h1 h2 = (h1 == h2) := by
  unfold secure_compare
  split
  · next hne =>
    cases e : h1 == h2 with
    | false => rfl
    | true => exact absurd (congrArg String.length (eq_of_beq e)) hne
  · rfl

/-- Helper: a list with a successful lookup is not empty. -/
theorem lookup_some_not_isEmpty {α β : Type} [BEq α] {l : List (α × β)}
    {k : α} {v : β} (h : l.lookup k = some v) : l.isEmpty = false := by
  cases l with
  | nil => simp [List.lookup] at h
  | cons a as => rfl

/-- Helper: `checkLocalFile` fails exactly on a changed tracked digest. -/
theorem checkLocalFile_changed {mem : MemConfig} {file : String}
    {env : FileEnv} {stored : String}
    (hex : env.localExists = true)
    (htracked : mem.local_hashes.lookup file = some stored)
    (hchanged : env.localMD5 ≠ stored) :
    checkLocalFile mem file env = false := by
  unfold checkLocalFile
  rw [hex, htracked]
  simp [lookup_some_not_isEmpty htracked, secure_compare_beq, hchanged]

/-- Helper: when the local file exists, is tracked in the in-memory
`local_hashes`, and its current digest differs from the stored one, one sync
pass takes the branch at lines 503-508 of main.py: it attempts an upload
(ignoring the result) and then runs both digest updates. -/
theorem syncStep_local_changed (mem : MemConfig) (sep : Char)
    (file stored : String) (env : FileEnv) (disk : JVal)
    (hex : env.localExists = true)
    (htracked : mem.local_hashes.lookup file = some stored)
    (hchanged : env.localMD5 ≠ stored) :
    syncStep mem sep file env disk
      = Except.ok ([Act.upload env.uploadOk, Act.updLocal, Act.updRemote],
          updateRemoteHash
            (updateLocalHash disk file env.localExists env.localMD5)
            sep file env) := by
  unfold syncStep
  rw [hex, checkLocalFile_changed hex htracked hchanged]
  simp [lookup_some_not_isEmpty htracked, htracked]

/-- C1 (counterexample): a tracked file whose local content changed
(stored local digest `d1`, current `d2`) and whose remote content also
changed (stored remote digest `d1`, current `d3`), with `d2 ≠ d3` — the
claim requires `Conflict` and neither an upload nor a download, but the pass
performs an `Upload` (overwriting the remote) without ever consulting the
remote side, and then nulls both stored hash maps via the `updateConfig`
merge slip. -/
theorem sync_both_changed_uploads_cex :
    syncStep ⟨[("f", "d1")], [(".FileSync/f", "d1")]⟩ '/' "f"
      ⟨true, "d2", true, false, some "d3", false, some "d2", true, true, ""⟩
      (JVal.obj [("local_hashes", JVal.obj [("f", JVal.str "d1")]),
                 ("remote_hashes", JVal.obj [(".FileSync/f", JVal.str "d1")])])
      = Except.ok ([Act.upload true, Act.updLocal, Act.updRemote],
          JVal.obj [("local_hashes", JVal.null),
                    ("remote_hashes", JVal.null)]) :=
  rfl

/-- C1 (amended): whenever the local copy of a tracked file has changed
(current local digest differs from the stored one), the pass uploads —
regardless of the remote state, which it never evaluates in this branch; the
source has no `Conflict` outcome, so a double change with disagreeing
digests results in `Upload`, not `Conflict`. -/
theorem sync_local_changed_uploads (mem : MemConfig) (sep : Char)
    (file stored : String) (env : FileEnv) (disk : JVal)
    (hex : env.localExists = true)
    (htracked : mem.local_hashes.lookup file = some stored)
    (hchanged : env.localMD5 ≠ stored) :
    ∃ d, syncStep mem sep file env disk
      = Except.ok ([Act.upload env.uploadOk, Act.updLocal, Act.updRemote],
          d) :=
  ⟨_, syncStep_local_changed mem sep file stored env disk hex htracked
        hchanged⟩

/-- Witness for `sync_local_changed_uploads`: scenario C of the spec
(`stored = {local: d1, remote: d1}`, `local_digest_now = d2`,
`remote_digest_now = d3`). -/
theorem sync_local_changed_uploads_witness :
    ∃ d, syncStep ⟨[("f", "d1")], [(".FileSync/f", "d1")]⟩ '/' "f"
      ⟨true, "d2", true, false, some "d3", false, some "d2", false, true, ""⟩
      (JVal.obj [("local_hashes", JVal.obj [("f", JVal.str "d1")])])
      = Except.ok ([Act.upload false, Act.updLocal, Act.updRemote], d) :=
  sync_local_changed_uploads _ '/' "f" "d1" _ _ rfl rfl (by decide)

/-- C2 (counterexample): the upload of a changed tracked file fails
(`upload` returns `False`), yet the pass still runs both digest updates —
the stored digests are not left untouched: `local_hashes` (and
`remote_hashes`) end up nulled by the failed merge, so the persisted state
changes although no transfer completed. -/
theorem sync_failed_upload_updates_store_cex :
    syncStep ⟨[("f", "d1")], [(".FileSync/f", "d1")]⟩ '/' "f"
      ⟨true, "d2", true, false, some "d1", false, some "d1", false, true, ""⟩
      (JVal.obj [("local_hashes", JVal.obj [("f", JVal.str "d1")]),
                 ("remote_hashes", JVal.obj [(".FileSync/f", JVal.str "d1")])])
      = Except.ok ([Act.upload false, Act.updLocal, Act.updRemote],
          JVal.obj [("local_hashes", JVal.null),
                    ("remote_hashes", JVal.null)])
    ∧ JVal.obj [("local_hashes", JVal.null), ("remote_hashes", JVal.null)]
        ≠ JVal.obj [("local_hashes", JVal.obj [("f", JVal.str "d1")]),
                    ("remote_hashes", JVal.obj [(".FileSync/f",
                      JVal.str "d1")])] := by
  refine ⟨rfl, ?_⟩
  intro h
  injection h with h1
  injection h1 with h2 _
  injection h2 with _ h3
  exact JVal.noConfusion h3

/-- C2 (amended): in the tracked-changed branch the two digest updates run
after the upload attempt unconditionally — the boolean result of `upload` is
ignored, so a failed transfer still rewrites the persisted digest fields
(only the missing-local download path, lines 543-549, checks the transfer
result before updating). -/
theorem sync_failed_upload_still_updates (mem : MemConfig) (sep : Char)
    (file stored : String) (env : FileEnv) (disk : JVal)
    (hex : env.localExists = true)
    (htracked : mem.local_hashes.lookup file = some stored)
    (hchanged : env.localMD5 ≠ stored)
    (hfail : env.uploadOk = false) :
    syncStep mem sep file env disk
      = Except.ok ([Act.upload false, Act.updLocal, Act.updRemote],
          updateRemoteHash
            (updateLocalHash disk file env.localExists env.localMD5)
            sep file env) := by
  rw [← hfail]
  exact syncStep_local_changed mem sep file stored env disk hex htracked
    hchanged

/-- Witness for `sync_failed_upload_still_updates`. -/
theorem sync_failed_upload_still_updates_witness :
    syncStep ⟨[("g", "aa")], []⟩ '/' "g"
      ⟨true, "bb", true, false, none, false, some "cc", false, false, ""⟩
      (JVal.obj [("local_hashes", JVal.obj [("g", JVal.str "aa")])])
      = Except.ok ([Act.upload false, Act.updLocal, Act.updRemote],
          updateRemoteHash
            (updateLocalHash
              (JVal.obj [("local_hashes", JVal.obj [("g", JVal.str "aa")])])
              "g" true "bb")
            '/' "g"
            ⟨true, "bb", true, false, none, false, some "cc", false, false,
              ""⟩) :=
  sync_failed_upload_still_updates _ '/' "g" "aa" _ _ rfl rfl (by decide) rfl

/-- C3: a file that exists locally but was never recorded in the stored
local digests (no `local_hashes` entry) is uploaded: the pass first writes
the fresh local hash to disk, then — because the in-memory snapshot the
re-check reads is unchanged — still fails `checkLocalFile` and uploads the
file, rather than merely adopting the local copy as baseline. -/
theorem sync_untracked_local_uploads (mem : MemConfig) (sep : Char)
    (file : String) (env : FileEnv) (disk : JVal)
    (hex : env.localExists = true)
    (huntracked : mem.local_hashes.lookup file = none)
    (hmismatch : env.remoteStdout
      ≠ mem.remote_hashes.lookup (remotePath sep file)) :
    ∃ d, syncStep mem sep file env disk
      = Except.ok ([Act.updLocal, Act.upload env.uploadOk, Act.updLocal,
          Act.updRemote], d) := by
  have hclf : checkLocalFile mem file env = false := by
    unfold checkLocalFile
    rw [hex, huntracked]
    simp
  unfold syncStep
  rw [hex, hclf]
  simp [huntracked]

/-- Witness for `sync_untracked_local_uploads`: fresh local file `f` with
digest `d1`, no stored digests, current remote digest `d9` differing from
the (absent) stored remote digest. -/
theorem sync_untracked_local_uploads_witness :
    ∃ d, syncStep ⟨[], []⟩ '/' "f"
      ⟨true, "d1", true, false, some "d9", false, some "d1", true, true, ""⟩
      (JVal.obj [("local_hashes", JVal.obj []),
                 ("remote_hashes", JVal.obj [])])
      = Except.ok ([Act.updLocal, Act.upload true, Act.updLocal,
          Act.updRemote], d) :=
  sync_untracked_local_uploads ⟨[], []⟩ '/' "f" _ _ rfl rfl (by decide)

/-- Helper: every `digitChar` output is one of the ten digit characters. -/
theorem digitChar_mem (m : Nat) :
    digitChar m ∈ ['0', '1', '2', '3', '4', '5', '6', '7', '8', '9'] := by
  match m with
  | 0 | 1 | 2 | 3 | 4 | 5 | 6 | 7 | 8 => decide
  | m + 9 => show '9' ∈ _; decide

/-- Helper: `digToNat` inverts `digitChar` below 10. -/
theorem digToNat_digitChar (m : Nat) (h : m < 10) :
    digToNat (digitChar m) = m := by
  interval_cases m <;> decide

/-- Helper: one-step unfolding of `natCharsAux` as a plain conditional. -/
theorem natCharsAux_eq (n : Nat) (acc : List Char) :
    natCharsAux n acc
      = if n = 0 then acc
        else natCharsAux (n / 10) (digitChar (n % 10) :: acc) := by
  rw [natCharsAux]
  by_cases h : n = 0 <;> simp [h]

/-- Helper: `natCharsAux` prepends the digits of `n` to the accumulator. -/
theorem natCharsAux_append (n : Nat) :
    ∀ acc, natCharsAux n acc = natCharsAux n [] ++ acc := by
  induction n using Nat.strong_induction_on with
  | _ n ih =>
    intro acc
    by_cases h : n = 0
    · subst h
      rw [natCharsAux_eq]
      conv_rhs => rw [natCharsAux_eq]
      simp
    · have hlt : n / 10 < n := Nat.div_lt_self (Nat.pos_of_ne_zero h) (by omega)
      rw [natCharsAux_eq]
      conv_rhs => rw [natCharsAux_eq]
      simp only [h, if_false]
      rw [ih (n / 10) hlt (digitChar (n % 10) :: acc),
          ih (n / 10) hlt (digitChar (n % 10) :: [])]
      simp

/-- Helper: all characters of `natChars n` are digit characters. -/
theorem natChars_mem_digits (n : Nat) :
    ∀ c ∈ natChars n, c ∈ ['0', '1', '2', '3', '4', '5', '6', '7', '8', '9'] := by
  have aux : ∀ m, ∀ acc,
      (∀ c ∈ acc, c ∈ ['0', '1', '2', '3', '4', '5', '6', '7', '8', '9'])
      → ∀ c ∈ natCharsAux m acc,
        c ∈ ['0', '1', '2', '3', '4', '5', '6', '7', '8', '9'] := by
    intro m
    induction m using Nat.strong_induction_on with
    | _ m ih =>
      intro acc hacc c hc
      by_cases h : m = 0
      · subst h; rw [natCharsAux] at hc; simp at hc; exact hacc c hc
      · rw [natCharsAux] at hc
        simp only [h, dite_false] at hc
        refine ih (m / 10) (Nat.div_lt_self (Nat.pos_of_ne_zero h) (by omega))
          _ ?_ c hc
        intro c' hc'
        rcases List.mem_cons.mp hc' with h' | h'
        · subst h'; exact digitChar_mem (m % 10)
        · exact hacc c' h'
  intro c hc
  unfold natChars at hc
  split at hc
  · simp at hc; subst hc; decide
  · exact aux n [] (by intro c' hc'; simp at hc') c hc

/-- Helper: `natChars` is never empty. -/
theorem natChars_ne_nil (n : Nat) : natChars n ≠ [] := by
  unfold natChars
  split
  · simp
  · next h =>
    rw [natCharsAux]
    simp only [h, dite_false]
    rw [natCharsAux_append]
    simp

/-- Helper: `digitsVal` of a snoc. -/
theorem digitsVal_snoc (xs : List Char) (c : Char) :
    digitsVal (xs ++ [c]) = digitsVal xs * 10 + digToNat c := by
  unfold digitsVal
  rw [List.foldl_append]
  rfl

/-- Helper: parsing back the decimal digits of `n` gives `n`. -/
theorem digitsVal_natChars (n : Nat) : digitsVal (natChars n) = n := by
  have aux : ∀ m, digitsVal (natCharsAux m []) = m := by
    intro m
    induction m using Nat.strong_induction_on with
    | _ m ih =>
      by_cases h : m = 0
      · subst h; rw [natCharsAux]; simp; rfl
      · rw [natCharsAux]
        simp only [h, dite_false]
        rw [natCharsAux_append]
        rw [digitsVal_snoc, ih (m / 10) (Nat.div_lt_self (Nat.pos_of_ne_zero h) (by omega)),
            digToNat_digitChar (m % 10) (Nat.mod_lt _ (by omega))]
        omega
  unfold natChars
  split
  · next h => subst h; decide
  · exact aux n

/-- Helper: digit characters are digits, not whitespace, and none of the
leading characters of the other token kinds. -/
theorem digit_char_facts (c : Char)
    (h : c ∈ ['0', '1', '2', '3', '4', '5', '6', '7', '8', '9']) :
    c.isDigit = true ∧ isWs c = false ∧ (c = '"') = False ∧ (c = '[') = False
      ∧ (c = '{') = False ∧ (c = 'n') = False := by
  fin_cases h <;> refine ⟨by decide, by decide, by simp, by simp, by simp,
    by simp⟩

/-- Helper: `skipWs` leaves a non-whitespace head alone. -/
theorem skipWs_cons (c : Char) (cs : List Char) (h : isWs c = false) :
    skipWs (c :: cs) = c :: cs := by
  rw [skipWs, h]
  simp

/-- Helper: a leading space is skipped. -/
theorem skipWs_space (s : List Char) : skipWs (' ' :: s) = skipWs s := by
  rw [skipWs]
  rfl

/-- Helper: `takeDigits` splits a digit run followed by a non-digit. -/
theorem takeDigits_append (ds : List Char)
    (hds : ∀ c ∈ ds, c.isDigit = true) :
    ∀ rest, (∀ c, rest.head? = some c → c.isDigit = false) →
      takeDigits (ds ++ rest) = (ds, rest) := by
  induction ds with
  | nil =>
    intro rest hrest
    cases rest with
    | nil => rfl
    | cons c cs =>
      rw [List.nil_append, takeDigits, hrest c rfl]
      simp
  | cons d ds ih =>
    intro rest hrest
    rw [List.cons_append, takeDigits, hds d (by simp)]
    simp only [if_true]
    rw [ih (by intro c hc; exact hds c (by simp [hc])) rest hrest]

/-- Helper: escaping of a quote or backslash. -/
theorem escChar_esc (c : Char) (h : c = '"' ∨ c = '\\') :
    escChar c = ['\\', c] := by
  unfold escChar
  simp [h]

/-- Helper: escaping of an ordinary character. -/
theorem escChar_plain (c : Char) (h : ¬(c = '"' ∨ c = '\\')) :
    escChar c = [c] := by
  unfold escChar
  simp [h]

/-- Helper: unfolding `parseStrBody` at an ordinary unescaped character. -/
theorem parseStrBody_other (c : Char) (cs : List Char) (h1 : c ≠ '"')
    (h2 : c ≠ '\\') :
    parseStrBody (c :: cs)
      = match parseStrBody cs with
        | some (b, r) => some (c :: b, r)
        | none => none := by
  rw [parseStrBody.eq_def]
  split
  · rename_i heq
    exact absurd heq (by simp)
  · rename_i cs2 heq
    rw [List.cons.injEq] at heq
    exact absurd heq.1 h1
  · rename_i c2 cs2 heq
    rw [List.cons.injEq] at heq
    exact absurd heq.1 h2
  · rename_i c2 cs2 hne1 hne2 heq
    rw [List.cons.injEq] at heq
    rw [heq.1, heq.2]

/-- Helper: `parseStrBody` undoes the escaping of `escStr`. -/
theorem parseStrBody_escStr (s : List Char) :
    ∀ rest, parseStrBody (s.flatMap escChar ++ '"' :: rest)
      = some (s, rest) := by
  induction s with
  | nil =>
    intro rest
    rw [List.flatMap_nil, List.nil_append]
    rfl
  | cons c cs ih =>
    intro rest
    rw [List.flatMap_cons]
    by_cases h : c = '"' ∨ c = '\\'
    · rw [escChar_esc c h]
      simp only [List.cons_append, List.singleton_append, List.append_assoc, List.nil_append]
      have step : parseStrBody
          ('\\' :: c :: (cs.flatMap escChar ++ '"' :: rest))
          = if c = '"' ∨ c = '\\' then
              match parseStrBody (cs.flatMap escChar ++ '"' :: rest) with
              | some (b, r) => some (c :: b, r)
              | none => none
            else none := rfl
      rw [step, if_pos h, ih rest]
    · rw [escChar_plain c h]
      simp only [List.cons_append, List.singleton_append, List.append_assoc, List.nil_append]
      have h1 : c ≠ '"' := fun hc => h (Or.inl hc)
      have h2 : c ≠ '\\' := fun hc => h (Or.inr hc)
      rw [parseStrBody_other c _ h1 h2, ih rest]

/-- Helper: `numGuard` holds whenever the remainder starts with a
non-digit. -/
theorem numGuard_cons (v : JVal) (c : Char) (rest : List Char)
    (h : c.isDigit = false) : numGuard v (c :: rest) := by
  cases v <;> try trivial
  intro c' hc'
  simp only [List.head?] at hc'
  injection hc' with h2
  rw [← h2]
  exact h

/-- Helper: `numGuard` holds for an empty remainder. -/
theorem numGuard_nil (v : JVal) : numGuard v [] := by
  cases v <;> try trivial
  intro c' hc'
  simp at hc'

/-- Helper: every printed value starts with a character that is neither
whitespace nor a closing bracket. -/
theorem dumpVal_head (v : JVal) :
    ∃ c t, dumpVal v = c :: t ∧ isWs c = false ∧ (c = ']') = False
      ∧ (c = '}') = False := by
  cases v with
  | null =>
    exact ⟨'n', ['u', 'l', 'l'], by simp [dumpVal], by decide, by simp,
      by simp⟩
  | num n =>
    cases hnc : natChars n with
    | nil => exact absurd hnc (natChars_ne_nil n)
    | cons c0 cs0 =>
      have hmem : c0 ∈ ['0', '1', '2', '3', '4', '5', '6', '7', '8', '9'] :=
        natChars_mem_digits n c0 (by rw [hnc]; exact List.mem_cons_self c0 cs0)
      refine ⟨c0, cs0, by simp [dumpVal, hnc], (digit_char_facts c0 hmem).2.1,
        ?_, ?_⟩ <;> fin_cases hmem <;> simp
  | str s =>
    exact ⟨'"', escStr s ++ ['"'], by simp [dumpVal], by decide, by simp,
      by simp⟩
  | arr vs =>
    exact ⟨'[', dumpElems vs ++ [']'], by simp [dumpVal], by decide, by simp,
      by simp⟩
  | obj kvs =>
    exact ⟨'{', dumpMembers kvs ++ ['}'], by simp [dumpVal], by decide,
      by simp, by simp⟩

/-- Helper: `skipWs` does not touch a printed value. -/
theorem skipWs_dumpVal (v : JVal) (rest : List Char) :
    skipWs (dumpVal v ++ rest) = dumpVal v ++ rest := by
  obtain ⟨c, t, hct, hws, -, -⟩ := dumpVal_head v
  rw [hct, List.cons_append, skipWs_cons c (t ++ rest) hws]

/-- Helper: `parseVal` ignores a leading space. -/
theorem parseVal_space (fuel : Nat) (s : List Char) :
    parseVal fuel (' ' :: s) = parseVal fuel s := by
  cases fuel <;> rfl

/-- Helper: `parseElems` ignores a leading space. -/
theorem parseElems_space (fuel : Nat) (s : List Char) :
    parseElems fuel (' ' :: s) = parseElems fuel s := by
  cases fuel with
  | zero => rfl
  | succ f =>
    rw [parseElems, parseElems, parseVal_space]

/-- Helper: `parseMembers` ignores a leading space. -/
theorem parseMembers_space (fuel : Nat) (s : List Char) :
    parseMembers fuel (' ' :: s) = parseMembers fuel s := by
  cases fuel <;> rfl

/-- Helper: every value costs at least one unit of parser fuel. -/
theorem nodes_pos (v : JVal) : 1 ≤ nodes v := by
  cases v <;> simp [nodes]

/-- Helper: a non-empty element list costs at least one unit of fuel. -/
theorem nodesL_pos (v : JVal) (vs : List JVal) : 1 ≤ nodesL (v :: vs) := by
  rw [nodesL]
  omega

/-- Helper: a non-empty member list costs at least one unit of fuel. -/
theorem nodesM_pos (kv : String × JVal) (kvs : List (String × JVal)) :
    1 ≤ nodesM (kv :: kvs) := by
  rw [nodesM]
  omega

mutual

/-- Helper: the fuel a value needs is bounded by its printed length. -/
theorem nodes_le_dump_len : ∀ v : JVal, nodes v ≤ (dumpVal v).length
  | .null => by simp [nodes, dumpVal]
  | .num n => by
    rw [nodes, dumpVal]
    cases hnc : natChars n with
    | nil => exact absurd hnc (natChars_ne_nil n)
    | cons c0 cs0 => simp
  | .str s => by simp [nodes, dumpVal]
  | .arr vs => by
    have h := nodesL_le_dump_len vs
    rw [nodes, dumpVal]
    simp only [List.length_cons, List.length_append, List.length_singleton]
    omega
  | .obj kvs => by
    have h := nodesM_le_dump_len kvs
    rw [nodes, dumpVal]
    simp only [List.length_cons, List.length_append, List.length_singleton]
    omega

/-- Helper: fuel bound for printed array elements. -/
theorem nodesL_le_dump_len :
    ∀ vs : List JVal, nodesL vs ≤ (dumpElems vs).length + 1
  | [] => by simp [nodesL]
  | [v] => by
    have h := nodes_le_dump_len v
    rw [nodesL, nodesL, dumpElems]
    omega
  | v :: v2 :: vs => by
    have h1 := nodes_le_dump_len v
    have h2 := nodesL_le_dump_len (v2 :: vs)
    rw [nodesL, dumpElems]
    · simp only [List.length_append, List.length_cons]
      omega
    · simp

/-- Helper: fuel bound for printed object members. -/
theorem nodesM_le_dump_len :
    ∀ kvs : List (String × JVal), nodesM kvs ≤ (dumpMembers kvs).length + 1
  | [] => by simp [nodesM]
  | [(k, v)] => by
    have h := nodes_le_dump_len v
    rw [nodesM, nodesM, dumpMembers]
    simp only [List.length_cons, List.length_append]
    omega
  | (k, v) :: kv2 :: kvs => by
    have h1 := nodes_le_dump_len v
    have h2 := nodesM_le_dump_len (kv2 :: kvs)
    rw [nodesM, dumpMembers]
    · simp only [List.length_append, List.length_cons]
      omega
    · simp

end

/-- Helper: the parser inverts the printer — the core of the round-trip
property, proved by induction on the parser fuel, jointly for values,
array elements and object members. -/
theorem parse_dump_aux : ∀ fuel : Nat,
    (∀ v rest, nodes v ≤ fuel → numGuard v rest →
      parseVal fuel (dumpVal v ++ rest) = some (v, rest))
    ∧ (∀ vs rest, vs ≠ [] → nodesL vs ≤ fuel →
      parseElems fuel (dumpElems vs ++ ']' :: rest) = some (vs, rest))
    ∧ (∀ kvs rest, kvs ≠ [] → nodesM kvs ≤ fuel →
      parseMembers fuel (dumpMembers kvs ++ '}' :: rest)
        = some (kvs, rest)) := by
  intro fuel
  induction fuel with
  | zero =>
    refine ⟨?_, ?_, ?_⟩
    · intro v rest hfl hg
      exact absurd hfl (by have := nodes_pos v; omega)
    · intro vs rest hne hfl
      cases vs with
      | nil => exact absurd rfl hne
      | cons v vs => exact absurd hfl (by have := nodesL_pos v vs; omega)
    · intro kvs rest hne hfl
      cases kvs with
      | nil => exact absurd rfl hne
      | cons kv kvs => exact absurd hfl (by have := nodesM_pos kv kvs; omega)
  | succ f ih =>
    obtain ⟨ihV, ihE, ihM⟩ := ih
    refine ⟨?_, ?_, ?_⟩
    · -- values
      intro v rest hfl hg
      cases v with
      | null =>
        rw [dumpVal]
        simp only [List.cons_append, List.nil_append]
        rfl
      | num n =>
        rw [dumpVal]
        simp only [numGuard] at hg
        cases hnc : natChars n with
        | nil => exact absurd hnc (natChars_ne_nil n)
        | cons c0 cs0 =>
          have hmem := natChars_mem_digits n c0
            (by rw [hnc]; exact List.mem_cons_self c0 cs0)
          obtain ⟨hdig, hws, hq, hlb, hcb, hn⟩ := digit_char_facts c0 hmem
          rw [List.cons_append, parseVal,
            skipWs_cons c0 (cs0 ++ rest) hws]
          try dsimp only
          simp only [hq, hlb, hcb, hn, if_false, hdig, if_true]
          have ht : takeDigits (c0 :: (cs0 ++ rest)) = (c0 :: cs0, rest) := by
            rw [← List.cons_append, ← hnc]
            exact takeDigits_append (natChars n)
              (fun c hc => (digit_char_facts c (natChars_mem_digits n c hc)).1)
              rest hg
          rw [ht]
          have hval : digitsVal (c0 :: cs0) = n := by
            rw [← hnc]; exact digitsVal_natChars n
          rw [hval]
      | str s =>
        rw [dumpVal]
        simp only [List.cons_append, List.append_assoc,
          List.singleton_append, List.nil_append]
        have step : parseVal (f + 1) ('"' :: (escStr s ++ '"' :: rest))
            = match parseStrBody (escStr s ++ '"' :: rest) with
              | some (b, r) => some (JVal.str (String.mk b), r)
              | none => none := rfl
        rw [step]
        unfold escStr
        rw [parseStrBody_escStr s.data rest]
      | arr vs =>
        rw [dumpVal]
        simp only [List.cons_append, List.append_assoc,
          List.singleton_append, List.nil_append]
        have step : parseVal (f + 1)
            ('[' :: (dumpElems vs ++ ']' :: rest))
            = match skipWs (dumpElems vs ++ ']' :: rest) with
              | ']' :: r => some (JVal.arr [], r)
              | cs2 =>
                match parseElems f cs2 with
                | some (vs2, r) => some (JVal.arr vs2, r)
                | none => none := rfl
        rw [step]
        cases vs with
        | nil =>
          rw [dumpElems]
          simp only [List.nil_append]
          rw [skipWs_cons ']' rest (by decide)]
          rfl
        | cons v0 vs0 =>
          obtain ⟨c, t, hct, hws, hrb, hcb⟩ := dumpVal_head v0
          have hde : ∃ u, dumpElems (v0 :: vs0) = c :: u := by
            cases vs0 with
            | nil => exact ⟨t, by rw [dumpElems, hct]⟩
            | cons v1 vs1 =>
              refine ⟨t ++ ',' :: ' ' :: dumpElems (v1 :: vs1), ?_⟩
              rw [dumpElems]
              · rw [hct, List.cons_append]
              · simp
          obtain ⟨u, hu⟩ := hde
          rw [hu, List.cons_append, skipWs_cons c (u ++ ']' :: rest) hws]
          split
          · rename_i r heq
            rw [List.cons.injEq] at heq
            have : ¬(c = ']') := by rw [hrb]; exact not_false
            exact absurd heq.1 this
          · rw [← List.cons_append, ← hu,
              ihE (v0 :: vs0) rest (by simp)
                (by rw [nodes] at hfl; omega)]
      | obj kvs =>
        rw [dumpVal]
        simp only [List.cons_append, List.append_assoc,
          List.singleton_append, List.nil_append]
        have step : parseVal (f + 1)
            ('{' :: (dumpMembers kvs ++ '}' :: rest))
            = match skipWs (dumpMembers kvs ++ '}' :: rest) with
              | '}' :: r => some (JVal.obj [], r)
              | cs2 =>
                match parseMembers f cs2 with
                | some (kvs2, r) => some (JVal.obj kvs2, r)
                | none => none := rfl
        rw [step]
        cases kvs with
        | nil =>
          rw [dumpMembers]
          simp only [List.nil_append]
          rw [skipWs_cons '}' rest (by decide)]
          rfl
        | cons kv0 kvs0 =>
          obtain ⟨k0, v0⟩ := kv0
          have hdm : ∃ u, dumpMembers ((k0, v0) :: kvs0) = '"' :: u := by
            cases kvs0 with
            | nil =>
              exact ⟨escStr k0 ++ '"' :: ':' :: ' ' :: dumpVal v0,
                by rw [dumpMembers]⟩
            | cons kv1 kvs1 =>
              refine ⟨(escStr k0 ++ '"' :: ':' :: ' ' :: dumpVal v0)
                ++ ',' :: ' ' :: dumpMembers (kv1 :: kvs1), ?_⟩
              rw [dumpMembers]
              · rw [List.cons_append]
              · simp
          obtain ⟨u, hu⟩ := hdm
          rw [hu, List.cons_append,
            skipWs_cons '"' (u ++ '}' :: rest) (by decide)]
          split
          · rename_i r heq
            rw [List.cons.injEq] at heq
            exact absurd heq.1 (by decide)
          · rw [← List.cons_append, ← hu,
              ihM ((k0, v0) :: kvs0) rest (by simp)
                (by rw [nodes] at hfl; omega)]
    · -- array elements
      intro vs rest hne hfl
      cases vs with
      | nil => exact absurd rfl hne
      | cons v0 vs0 =>
        cases vs0 with
        | nil =>
          rw [dumpElems, parseElems]
          have hfv : nodes v0 ≤ f := by
            rw [nodesL, nodesL] at hfl; omega
          rw [ihV v0 (']' :: rest) hfv
            (numGuard_cons v0 ']' rest (by decide))]
          try dsimp only
          rw [skipWs_cons ']' rest (by decide)]
          rfl
        | cons v1 vs1 =>
          rw [dumpElems]
          · simp only [List.append_assoc, List.cons_append]
            rw [parseElems]
            have hfv : nodes v0 ≤ f := by
              rw [nodesL] at hfl
              have := nodesL_pos v1 vs1
              omega
            rw [ihV v0
              (',' :: ' ' :: (dumpElems (v1 :: vs1) ++ ']' :: rest)) hfv
              (numGuard_cons v0 ',' _ (by decide))]
            show (match parseElems f
                (' ' :: (dumpElems (v1 :: vs1) ++ ']' :: rest)) with
              | some (vs, r3) => some (v0 :: vs, r3)
              | none => none) = some (v0 :: v1 :: vs1, rest)
            rw [parseElems_space,
              ihE (v1 :: vs1) rest (by simp)
                (by rw [nodesL] at hfl; omega)]
          · simp
    · -- object members
      intro kvs rest hne hfl
      cases kvs with
      | nil => exact absurd rfl hne
      | cons kv0 kvs0 =>
        obtain ⟨k0, v0⟩ := kv0
        cases kvs0 with
        | nil =>
          rw [dumpMembers, parseMembers]
          simp only [List.cons_append, List.append_assoc,
            List.singleton_append]
          rw [skipWs_cons '"' _ (by decide)]
          unfold escStr
          show (match parseStrBody (k0.data.flatMap escChar
              ++ '"' :: ':' :: ' ' :: (dumpVal v0 ++ '}' :: rest)) with
            | some (k, r) =>
              match skipWs r with
              | ':' :: r2 =>
                match parseVal f r2 with
                | none => none
                | some (v, r3) =>
                  match skipWs r3 with
                  | ',' :: r4 =>
                    match parseMembers f r4 with
                    | some (kvs, r5) => some ((String.mk k, v) :: kvs, r5)
                    | none => none
                  | '}' :: r4 => some ([(String.mk k, v)], r4)
                  | _ => none
              | _ => none
            | none => none) = some ([(k0, v0)], rest)
          rw [parseStrBody_escStr k0.data
            (':' :: ' ' :: (dumpVal v0 ++ '}' :: rest))]
          show (match parseVal f (' ' :: (dumpVal v0 ++ '}' :: rest)) with
            | none => none
            | some (v, r3) =>
              match skipWs r3 with
              | ',' :: r4 =>
                match parseMembers f r4 with
                | some (kvs, r5) =>
                  some ((String.mk k0.data, v) :: kvs, r5)
                | none => none
              | '}' :: r4 => some ([(String.mk k0.data, v)], r4)
              | _ => none) = some ([(k0, v0)], rest)
          have hfv : nodes v0 ≤ f := by
            rw [nodesM, nodesM] at hfl
            dsimp only at hfl
            omega
          rw [parseVal_space,
            ihV v0 ('}' :: rest) hfv
              (numGuard_cons v0 '}' rest (by decide))]
          rfl
        | cons kv1 kvs1 =>
          rw [dumpMembers]
          · rw [parseMembers]
            simp only [List.cons_append, List.append_assoc,
              List.singleton_append]
            rw [skipWs_cons '"' _ (by decide)]
            unfold escStr
            show (match parseStrBody (k0.data.flatMap escChar
                ++ '"' :: ':' :: ' ' :: (dumpVal v0
                  ++ ',' :: ' ' :: (dumpMembers (kv1 :: kvs1)
                    ++ '}' :: rest))) with
              | some (k, r) =>
                match skipWs r with
                | ':' :: r2 =>
                  match parseVal f r2 with
                  | none => none
                  | some (v, r3) =>
                    match skipWs r3 with
                    | ',' :: r4 =>
                      match parseMembers f r4 with
                      | some (kvs, r5) => some ((String.mk k, v) :: kvs, r5)
                      | none => none
                    | '}' :: r4 => some ([(String.mk k, v)], r4)
                    | _ => none
                | _ => none
              | none => none) = some ((k0, v0) :: kv1 :: kvs1, rest)
            rw [parseStrBody_escStr k0.data
              (':' :: ' ' :: (dumpVal v0
                ++ ',' :: ' ' :: (dumpMembers (kv1 :: kvs1)
                  ++ '}' :: rest)))]
            show (match parseVal f (' ' :: (dumpVal v0
                ++ ',' :: ' ' :: (dumpMembers (kv1 :: kvs1)
                  ++ '}' :: rest))) with
              | none => none
              | some (v, r3) =>
                match skipWs r3 with
                | ',' :: r4 =>
                  match parseMembers f r4 with
                  | some (kvs, r5) =>
                    some ((String.mk k0.data, v) :: kvs, r5)
                  | none => none
                | '}' :: r4 => some ([(String.mk k0.data, v)], r4)
                | _ => none)
              = some ((k0, v0) :: kv1 :: kvs1, rest)
            have hfv : nodes v0 ≤ f := by
              rw [nodesM] at hfl
              dsimp only at hfl
              have := nodesM_pos kv1 kvs1
              omega
            rw [parseVal_space,
              ihV v0 (',' :: ' ' :: (dumpMembers (kv1 :: kvs1)
                ++ '}' :: rest)) hfv
                (numGuard_cons v0 ',' _ (by decide))]
            show (match parseMembers f
                (' ' :: (dumpMembers (kv1 :: kvs1) ++ '}' :: rest)) with
              | some (kvs, r5) =>
                some ((String.mk k0.data, v0) :: kvs, r5)
              | none => none) = some ((k0, v0) :: kv1 :: kvs1, rest)
            rw [parseMembers_space,
              ihM (kv1 :: kvs1) rest (by simp)
                (by rw [nodesM] at hfl; omega)]
          · simp

/-- C6: for every valid persisted state value (printable-ASCII strings, the
domain the program's own writes stay in), serializing with `dumps`
(`json.dumps`) and re-reading with `loads` (`json.loads`) — which is exactly
what `initConfig`'s save/load pair does, with no further transformation —
returns the same value: the persisted state round-trips exactly. -/
theorem loads_dumps_roundtrip (v : JVal) (hv : validB v = true) :
    loads (dumps v) = some v := by
  unfold loads dumps
  have hfl : nodes v ≤ (dumpVal v).length + 1 := by
    have := nodes_le_dump_len v
    omega
  have h := (parse_dump_aux ((dumpVal v).length + 1)).1 v [] hfl
    (numGuard_nil v)
  rw [List.append_nil] at h
  show (match parseVal ((dumpVal v).length + 1) (dumpVal v) with
    | some (v2, r) => if skipWs r = [] then some v2 else none
    | none => none) = some v
  rw [h]
  rfl

/-- Witness for `loads_dumps_roundtrip`: a full config value of the shape
`initConfig` writes (connection parameters, tracked files, both hash maps,
Windows-style paths with backslashes). -/
theorem loads_dumps_roundtrip_witness :
    validB (JVal.obj
      [("hostname", JVal.str "h.example"),
       ("port", JVal.num 22),
       ("username", JVal.str "u"),
       ("password", JVal.str "p"),
       ("local_files", JVal.arr [JVal.str "C:\\docs\\f.txt"]),
       ("local_hashes", JVal.obj
         [("C:\\docs\\f.txt", JVal.str "d41d8cd98f00b204e9800998ecf8427e")]),
       ("remote_hashes", JVal.obj
         [(".FileSync/f.txt",
           JVal.str "d41d8cd98f00b204e9800998ecf8427e")])]) = true
    ∧ loads (dumps (JVal.obj
      [("hostname", JVal.str "h.example"),
       ("port", JVal.num 22),
       ("username", JVal.str "u"),
       ("password", JVal.str "p"),
       ("local_files", JVal.arr [JVal.str "C:\\docs\\f.txt"]),
       ("local_hashes", JVal.obj
         [("C:\\docs\\f.txt", JVal.str "d41d8cd98f00b204e9800998ecf8427e")]),
       ("remote_hashes", JVal.obj
         [(".FileSync/f.txt",
           JVal.str "d41d8cd98f00b204e9800998ecf8427e")])]))
      = some (JVal.obj
      [("hostname", JVal.str "h.example"),
       ("port", JVal.num 22),
       ("username", JVal.str "u"),
       ("password", JVal.str "p"),
       ("local_files", JVal.arr [JVal.str "C:\\docs\\f.txt"]),
       ("local_hashes", JVal.obj
         [("C:\\docs\\f.txt", JVal.str "d41d8cd98f00b204e9800998ecf8427e")]),
       ("remote_hashes", JVal.obj
         [(".FileSync/f.txt",
           JVal.str "d41d8cd98f00b204e9800998ecf8427e")])]) :=
  ⟨by simp only [validB, validBM, validBL, Bool.and_eq_true]; decide,
   loads_dumps_roundtrip _
     (by simp only [validB, validBM, validBL, Bool.and_eq_true]; decide)⟩

/-- C7 (counterexample): during the running sync loop, every digest update
(`updateLocalHash`/`updateRemoteHash`) calls `updateConfig`, which re-reads
and re-parses `config.json`; if the persisted state is unparsable at that
moment, `updateConfig` calls `sys.exit(1)` (lines 423-427) — a parse failure
during the loop is fatal, contradicting "never fatal during the running sync
loop". -/
theorem loop_parse_failure_exits_cex :
    updateLocalHashS "\x7b" "f" "d1" true = Except.error 1 :=
  rfl

/-- C7 (amended): an unparsable persisted state file is fatal (exit code 1)
both at startup (`initConfig`, lines 89-93) and during the running loop
whenever `updateConfig` re-reads it (lines 423-427). -/
theorem parse_failure_fatal_startup_and_loop (data : String) (key : String)
    (value : JVal) (hbad : loads data = none) :
    initConfigLoad data = Except.error 1
      ∧ updateConfigS data key value = Except.error 1 := by
  unfold initConfigLoad updateConfigS
  rw [hbad]
  exact ⟨rfl, rfl⟩

/-- Witness for `parse_failure_fatal_startup_and_loop` at the unparsable
content consisting of a single opening brace. -/
theorem parse_failure_fatal_startup_and_loop_witness :
    loads "\x7b" = none
      ∧ initConfigLoad "\x7b" = Except.error 1
      ∧ updateConfigS "\x7b" "local_hashes" (JVal.obj [("f", JVal.str "d1")])
          = Except.error 1 :=
  ⟨rfl, parse_failure_fatal_startup_and_loop "\x7b" "local_hashes"
    (JVal.obj [("f", JVal.str "d1")]) rfl⟩
